import Mathlib

/-!
Verification development for a minimal URDF forward-kinematics engine
(`jointstate2tf`): a math kernel (vectors, quaternions, rigid transforms),
a permissive regex-style URDF joint parser, and a stateful engine that maps
joint values to one relative transform per joint.

Numbers are modelled as exact reals; numeric literals parsed from text are
modelled as exact rationals cast into the reals.  The JavaScript regexes of
the source are modelled by character-list scanners implementing the same
leftmost-match semantics.  JavaScript `Map` objects (insertion-ordered,
unique keys) are modelled as association lists with replace-in-place
update; the joint objects shared between the model's lookup tables are
identified through the `jointsByName` table, with the secondary
`jointsByParentLink` table holding joint names.
-/

-- -----------------------------
-- Math kernel (source: vec3 / quat helpers)
-- -----------------------------

structure MathVec3 where
  x : ℝ
  y : ℝ
  z : ℝ

structure MathQuat where
  x : ℝ
  y : ℝ
  z : ℝ
  w : ℝ

def vec3 (x y z : ℝ) : MathVec3 := ⟨x, y, z⟩

def quatIdentity : MathQuat := ⟨0, 0, 0, 1⟩

def vec3Add (a b : MathVec3) : MathVec3 :=
  ⟨a.x + b.x, a.y + b.y, a.z + b.z⟩

def vec3Scale (a : MathVec3) (s : ℝ) : MathVec3 :=
  ⟨a.x * s, a.y * s, a.z * s⟩

/-- Source `vec3Length` uses `Math.hypot(x, y, z)`, mathematically the
square root of the sum of squares. -/
noncomputable def vec3Length (a : MathVec3) : ℝ :=
  Real.sqrt (a.x ^ 2 + a.y ^ 2 + a.z ^ 2)

/-- Source `vec3Normalize`: `const len = vec3Length(a) || 1` — over exact
reals the JavaScript falsy check `|| 1` substitutes 1 exactly when the
length is 0. -/
noncomputable def vec3Normalize (a : MathVec3) : MathVec3 :=
  let len := if vec3Length a = 0 then 1 else vec3Length a
  ⟨a.x / len, a.y / len, a.z / len⟩

/-- Hamilton product as written in the source (`quatMultiply`). -/
def quatMultiply (a b : MathQuat) : MathQuat :=
  { w := a.w * b.w - a.x * b.x - a.y * b.y - a.z * b.z
    x := a.w * b.x + a.x * b.w + a.y * b.z - a.z * b.y
    y := a.w * b.y - a.x * b.z + a.y * b.w + a.z * b.x
    z := a.w * b.z + a.x * b.y - a.y * b.x + a.z * b.w }

noncomputable def quatFromAxisAngle (axis : MathVec3) (angle : ℝ) : MathQuat :=
  let n := vec3Normalize axis
  let h := angle * 0.5
  let s := Real.sin h
  ⟨n.x * s, n.y * s, n.z * s, Real.cos h⟩

/-- Source `quatFromRPY`: fixed-axis X(roll) → Y(pitch) → Z(yaw), closed
form. -/
noncomputable def quatFromRPY (roll pitch yaw : ℝ) : MathQuat :=
  let cx := Real.cos (roll * 0.5)
  let sx := Real.sin (roll * 0.5)
  let cy := Real.cos (pitch * 0.5)
  let sy := Real.sin (pitch * 0.5)
  let cz := Real.cos (yaw * 0.5)
  let sz := Real.sin (yaw * 0.5)
  { w := cz * cy * cx + sz * sy * sx
    x := cz * cy * sx - sz * sy * cx
    y := cz * sy * cx + sz * cy * sx
    z := sz * cy * cx - cz * sy * sx }

/-- Source `vec3RotateByQuat`: `v + 2*q_vec × (q_vec × v + qw*v)`. -/
def vec3RotateByQuat (v : MathVec3) (q : MathQuat) : MathVec3 :=
  let uvx := q.y * v.z - q.z * v.y
  let uvy := q.z * v.x - q.x * v.z
  let uvz := q.x * v.y - q.y * v.x
  let uuvx := q.y * uvz - q.z * uvy
  let uuvy := q.z * uvx - q.x * uvz
  let uuvz := q.x * uvy - q.y * uvx
  { x := v.x + 2 * (q.w * uvx + uuvx)
    y := v.y + 2 * (q.w * uvy + uuvy)
    z := v.z + 2 * (q.w * uvz + uuvz) }

structure TransformTR where
  r : MathQuat
  t : MathVec3

/-- Source `composeTR`. -/
def composeTR (a b : TransformTR) : TransformTR :=
  { r := quatMultiply a.r b.r
    t := vec3Add a.t (vec3RotateByQuat b.t a.r) }

-- -----------------------------
-- Joint / model data types
-- -----------------------------

inductive JointType where
  | revolute
  | continuous
  | prismatic
  | fixed
deriving DecidableEq

structure UrdfJoint where
  name : String
  type : JointType
  parent : String
  child : String
  origin : TransformTR
  axis : MathVec3
  q : ℝ

structure UrdfModel where
  jointsByName : List (String × UrdfJoint)
  jointsByParentLink : List (String × List String)
  linkParent : List (String × String)

structure Time where
  sec : ℕ
  nanosec : ℕ
deriving DecidableEq

structure Header where
  stamp : Time
  frame_id : String

structure JointState where
  header : Header
  name : List String
  position : List ℝ

structure Transform where
  translation : MathVec3
  rotation : MathQuat

structure TransformStamped where
  header : Header
  child_frame_id : String
  transform : Transform

structure TFMessage where
  transforms : List TransformStamped

structure ComputeOptions where
  publishTimeNs : Option ℕ := none

-- -----------------------------
-- Association-list model of the JavaScript `Map`
-- (insertion-ordered; `set` replaces the value at an existing key in
-- place, else appends)
-- -----------------------------

def mapGet {α : Type} (m : List (String × α)) (k : String) : Option α :=
  match m with
  | [] => none
  | p :: tl => if p.1 = k then some p.2 else mapGet tl k

def mapSet {α : Type} (m : List (String × α)) (k : String) (v : α) :
    List (String × α) :=
  match m with
  | [] => [(k, v)]
  | p :: tl => if p.1 = k then (k, v) :: tl else p :: mapSet tl k v

-- -----------------------------
-- Character-level scanners modelling the source's regexes
-- -----------------------------

/-- A regex `\w` character: `[A-Za-z0-9_]`. -/
def isWordChar (c : Char) : Bool := c.isAlphanum || c = '_'

/-- The common characters of regex `\s` / `String.prototype.trim`. -/
def isJsSpace (c : Char) : Bool :=
  c = ' ' || c = '\t' || c = '\n' || c = '\r' || c = '\x0b' || c = '\x0c'

def startsWithChars : List Char → List Char → Bool
  | [], _ => true
  | _ :: _, [] => false
  | p :: ps, c :: cs => p = c && startsWithChars ps cs

/-- Split a character list at the first occurrence of a character:
`takeUntilChar c s = some (before, after)` with `s = before ++ [c] ++ after`
and `c ∉ before`. -/
def takeUntilChar (c : Char) : List Char → Option (List Char × List Char)
  | [] => none
  | a :: rest =>
    if a = c then some ([], rest)
    else (takeUntilChar c rest).map (fun p => (a :: p.1, p.2))

/-- Split a character list around the first occurrence of a substring:
`splitFirstSub pat s = some (before, after)` where `s = before ++ pat ++
after` and `pat` does not start earlier. -/
def splitFirstSub (pat : List Char) : List Char → Option (List Char × List Char)
  | [] => if startsWithChars pat [] then some ([], []) else none
  | c :: rest =>
    if startsWithChars pat (c :: rest) then some ([], (c :: rest).drop pat.length)
    else (splitFirstSub pat rest).map (fun p => (c :: p.1, p.2))

/-- Longest run of `\w` characters at the head, with the remainder. -/
def takeWordRun : List Char → List Char × List Char
  | [] => ([], [])
  | c :: rest =>
    if isWordChar c then
      ((c :: (takeWordRun rest).1), (takeWordRun rest).2)
    else ([], c :: rest)

/-- One leftmost attempt of the attribute regex `(\w+)\s*=\s*"([^"]*)"` at
the head of the input: on success, the key, the value, and the remainder
after the closing quote. -/
def tryAttrAt (s : List Char) : Option (String × String × List Char) :=
  let run := (takeWordRun s).1
  let afterRun := (takeWordRun s).2
  if run.isEmpty then none
  else
    match afterRun.dropWhile isJsSpace with
    | '=' :: t =>
      match t.dropWhile isJsSpace with
      | '"' :: u =>
        match takeUntilChar '"' u with
        | some (val, rest2) => some (String.mk run, String.mk val, rest2)
        | none => none
      | _ => none
    | _ => none

/-- Global scan of the attribute regex `(\w+)\s*=\s*"([^"]*)"` (source
`parseAttrs`): leftmost matches, resuming after each match, advancing one
character on a failed attempt.  The structural fuel argument is
initialised with the input length; every step strictly shrinks the input,
so the fuel never runs out. -/
def parseAttrsGo : ℕ → List Char → List (String × String)
  | _, [] => []
  | 0, _ :: _ => []
  | fuel + 1, c :: rest =>
    if isWordChar c then
      match tryAttrAt (c :: rest) with
      | some (k, v, rest2) => (k, v) :: parseAttrsGo fuel rest2
      | none => parseAttrsGo fuel rest
    else parseAttrsGo fuel rest

def parseAttrsAux (s : List Char) : List (String × String) :=
  parseAttrsGo s.length s

def parseAttrs (s : String) : List (String × String) := parseAttrsAux s.data

/-- JavaScript object property lookup for the record built by `parseAttrs`
(`out[k] = v` — a later assignment to the same key wins). -/
def attrsGet (attrs : List (String × String)) (k : String) : Option String :=
  mapGet attrs.reverse k

def jsTrimChars (s : List Char) : List Char :=
  ((s.dropWhile isJsSpace).reverse.dropWhile isJsSpace).reverse

def jsTrim (s : String) : String := String.mk (jsTrimChars s.data)

/-- Regex word boundary `\b` directly after a word character: the next
character must not be a word character (or the input ends). -/
def boundaryOkAfter : List Char → Bool
  | [] => true
  | c :: _ => !(isWordChar c)

/-- First match of `<tag\b([^>]*)>` (the pattern argument is `<` followed
by the tag name): the capture runs from after the tag name to the first
following `>`. -/
def findOpenTagCapture (pat : List Char) : List Char → Option (List Char)
  | [] => none
  | c :: rest =>
    if startsWithChars pat (c :: rest) && boundaryOkAfter ((c :: rest).drop pat.length) then
      match takeUntilChar '>' ((c :: rest).drop pat.length) with
      | some (capt, _) => some capt
      | none => findOpenTagCapture pat rest
    else findOpenTagCapture pat rest

/-- First match of `<tag\b([^>]*)\/>`: as `findOpenTagCapture`, but the
character before the closing `>` must be `/`, which is excluded from the
capture; otherwise the scan moves to the next candidate position. -/
def findSelfCloseTag (pat : List Char) : List Char → Option (List Char)
  | [] => none
  | c :: rest =>
    if startsWithChars pat (c :: rest) && boundaryOkAfter ((c :: rest).drop pat.length) then
      match takeUntilChar '>' ((c :: rest).drop pat.length) with
      | some (capt, _) =>
        match capt.getLast? with
        | some '/' => some capt.dropLast
        | _ => findSelfCloseTag pat rest
      | none => findSelfCloseTag pat rest
    else findSelfCloseTag pat rest

def openJointPat : List Char := "<joint".data

def closeJointPat : List Char := "</joint>".data

/-- Global scan of `<joint\b[\s\S]*?<\/joint>` (source
`extractJointBlocks`): lazy middle, so each block ends at the first
`</joint>` after its opening; scanning resumes after each match; when no
`</joint>` follows a candidate opening, no later candidate can complete
either, so the scan stops.  Structural fuel as in `parseAttrsGo`. -/
def extractJointBlocksGo : ℕ → List Char → List (List Char)
  | _, [] => []
  | 0, _ :: _ => []
  | fuel + 1, c :: rest =>
    if startsWithChars openJointPat (c :: rest) && boundaryOkAfter ((c :: rest).drop 6) then
      match splitFirstSub closeJointPat ((c :: rest).drop 6) with
      | some (mid, after) =>
        (openJointPat ++ mid ++ closeJointPat) :: extractJointBlocksGo fuel after
      | none => []
    else extractJointBlocksGo fuel rest

def extractJointBlocksAux (s : List Char) : List (List Char) :=
  extractJointBlocksGo s.length s

def extractJointBlocks (xml : String) : List String :=
  (extractJointBlocksAux xml.data).map String.mk

def jointOpenCapture (block : String) : Option String :=
  (findOpenTagCapture "<joint".data block.data).map String.mk

/-- Source `parseSingleTagAttr`: first self-closing `<tag …/>`, then the
requested attribute of its attribute list, trimmed. -/
def parseSingleTagAttr (block tag attr : String) : Option String :=
  match findSelfCloseTag ('<' :: tag.data) block.data with
  | none => none
  | some capt => (attrsGet (parseAttrsAux capt) attr).map jsTrim

/-- Source `parseFirstSelfOrOpenTag`: prefer a self-closing tag, else an
opening tag. -/
def parseFirstSelfOrOpenTag (block tag : String) :
    Option (List (String × String)) :=
  match findSelfCloseTag ('<' :: tag.data) block.data with
  | some capt => some (parseAttrsAux capt)
  | none =>
    match findOpenTagCapture ('<' :: tag.data) block.data with
    | some capt => some (parseAttrsAux capt)
    | none => none

-- -----------------------------
-- Numeric token parsing (JavaScript `Number(...)` on decimal literals)
-- -----------------------------

def decToNat (ds : List Char) : ℕ :=
  ds.foldl (fun n c => 10 * n + (c.toNat - '0'.toNat)) 0

def takeDigits (s : List Char) : List Char × List Char :=
  (s.takeWhile Char.isDigit, s.dropWhile Char.isDigit)

def parseExpPart (s : List Char) : Option ℤ :=
  match s with
  | '+' :: t => if t ≠ [] ∧ t.all Char.isDigit then some (decToNat t : ℤ) else none
  | '-' :: t => if t ≠ [] ∧ t.all Char.isDigit then some (-(decToNat t : ℤ)) else none
  | t => if t ≠ [] ∧ t.all Char.isDigit then some (decToNat t : ℤ) else none

/-- Unsigned decimal numeric literal: `digits [. digits] [exponent]` or
`. digits [exponent]`. -/
def jsNumberBody (t : List Char) : Option ℚ :=
  let ip := (takeDigits t).1
  match (takeDigits t).2 with
  | [] => if ip.isEmpty then none else some (decToNat ip : ℚ)
  | '.' :: r2 =>
    let fp := (takeDigits r2).1
    let r3 := (takeDigits r2).2
    if ip.isEmpty && fp.isEmpty then none
    else
      let mant : ℚ := (decToNat ip : ℚ) + (decToNat fp : ℚ) / ((10 : ℚ) ^ fp.length)
      match r3 with
      | [] => some mant
      | e :: r4 =>
        if e = 'e' ∨ e = 'E' then (parseExpPart r4).map (fun ex => mant * (10 : ℚ) ^ ex)
        else none
  | e :: r4 =>
    if (e = 'e' ∨ e = 'E') ∧ ¬ ip.isEmpty then
      (parseExpPart r4).map (fun ex => (decToNat ip : ℚ) * (10 : ℚ) ^ ex)
    else none

/-- JavaScript `Number(string)` restricted to the decimal fragment of its
grammar: surrounding whitespace is trimmed, the empty string is 0, an
optional sign precedes a decimal literal; `none` models `NaN`.  (The
non-decimal forms — hex/octal/binary prefixes and `Infinity` — are also
mapped to `none`; the repository's inputs are plain decimal tokens.) -/
def jsNumber (s : String) : Option ℚ :=
  let t := jsTrimChars s.data
  if t.isEmpty then some 0
  else
    match t with
    | '+' :: u => jsNumberBody u
    | '-' :: u => (jsNumberBody u).map (fun q => -q)
    | u => jsNumberBody u

-- -----------------------------
-- `split(/\s+/)` and the xyz / rpy attribute parsers
-- -----------------------------

/-- JavaScript `s.split(/\s+/)`.  The second argument is `some acc` while
accumulating a token and `none` while inside a whitespace-run separator;
a whitespace run ends the current token (so a leading run yields a leading
empty string and a trailing run a trailing empty string).  Structural fuel
as in `parseAttrsGo`. -/
def splitWsGo : ℕ → Option (List Char) → List Char → List String
  | _, some acc, [] => [String.mk acc.reverse]
  | _, none, [] => [""]
  | 0, _, _ :: _ => []
  | fuel + 1, some acc, c :: rest =>
    if isJsSpace c then String.mk acc.reverse :: splitWsGo fuel none rest
    else splitWsGo fuel (some (c :: acc)) rest
  | fuel + 1, none, c :: rest =>
    if isJsSpace c then splitWsGo fuel none rest
    else splitWsGo fuel (some [c]) rest

def jsSplitWs (s : String) : List String := splitWsGo s.data.length (some []) s.data

/-- Destructured token `i` of `s.split(/\s+/).map(Number)` followed by the
source's `x || 0` defaulting: a missing token (`undefined`) and `NaN` both
become 0. -/
def numAt (toks : List String) (i : ℕ) : ℚ :=
  match toks.get? i with
  | none => 0
  | some tk => (jsNumber tk).getD 0

/-- Source `parseXyz` (the argument may be absent or empty — JavaScript
`!s` — in which case the zero vector is returned). -/
def parseXyz (s : Option String) : MathVec3 :=
  if s.getD "" = "" then vec3 0 0 0
  else
    let toks := jsSplitWs (s.getD "")
    vec3 ((numAt toks 0 : ℚ) : ℝ) ((numAt toks 1 : ℚ) : ℝ) ((numAt toks 2 : ℚ) : ℝ)

def parseXyzVec (s : String) : MathVec3 := parseXyz (some s)

/-- Source `parseRpy`. -/
noncomputable def parseRpy (s : Option String) : MathQuat :=
  if s.getD "" = "" then quatIdentity
  else
    let toks := jsSplitWs (s.getD "")
    quatFromRPY ((numAt toks 0 : ℚ) : ℝ) ((numAt toks 1 : ℚ) : ℝ) ((numAt toks 2 : ℚ) : ℝ)

-- -----------------------------
-- Joint block parsing and model building
-- -----------------------------

/-- The source casts the `type` attribute and keeps it only when it is in
the closed set, else `fixed`. -/
def parseJointType (s : String) : JointType :=
  if s = "revolute" then .revolute
  else if s = "continuous" then .continuous
  else if s = "prismatic" then .prismatic
  else .fixed

/-- Source `parseJointBlock`.  The `!name || !parentLink || !childLink`
falsy test drops the block when the name trims to empty, when a `parent` /
`child` self-closing element (or its `link` attribute) is missing, or when
the link trims to empty. -/
noncomputable def parseJointBlock (block : String) : Option UrdfJoint :=
  match jointOpenCapture block with
  | none => none
  | some capt =>
    let openAttrs := parseAttrs capt
    let name := jsTrim ((attrsGet openAttrs "name").getD "")
    let tyStr := jsTrim ((attrsGet openAttrs "type").getD "fixed")
    let parentLink := parseSingleTagAttr block "parent" "link"
    let childLink := parseSingleTagAttr block "child" "link"
    if name = "" ∨ parentLink.getD "" = "" ∨ childLink.getD "" = "" then none
    else
      let originAttrs := parseFirstSelfOrOpenTag block "origin"
      let originT := parseXyz (originAttrs.bind (fun a => attrsGet a "xyz"))
      let originR := parseRpy (originAttrs.bind (fun a => attrsGet a "rpy"))
      let axis :=
        match (parseFirstSelfOrOpenTag block "axis").bind (fun a => attrsGet a "xyz") with
        | some s => if s = "" then vec3 1 0 0 else parseXyzVec s
        | none => vec3 1 0 0
      some { name := name
             type := parseJointType tyStr
             parent := parentLink.getD ""
             child := childLink.getD ""
             origin := { r := originR, t := originT }
             axis := vec3Normalize axis
             q := 0 }

/-- One iteration of the model-building loop in `parseUrdf`. -/
def modelStep (m : UrdfModel) (j : UrdfJoint) : UrdfModel :=
  { jointsByName := mapSet m.jointsByName j.name j
    jointsByParentLink :=
      mapSet m.jointsByParentLink j.parent
        (((mapGet m.jointsByParentLink j.parent).getD []) ++ [j.name])
    linkParent := mapSet m.linkParent j.child j.parent }

def buildModelFromJoints (joints : List UrdfJoint) : UrdfModel :=
  joints.foldl modelStep ⟨[], [], []⟩

/-- Source `parseUrdf`. -/
noncomputable def parseUrdf (xml : String) : UrdfModel :=
  buildModelFromJoints ((extractJointBlocks xml).filterMap parseJointBlock)

-- -----------------------------
-- FK engine
-- -----------------------------

/-- The transient `nameToPos` association of `setJointState`:
`jointState.name.forEach((n, i) => nameToPos.set(n, position[i] ?? 0))`. -/
def buildNameToPos (names : List String) (positions : List ℝ) :
    List (String × ℝ) :=
  names.enum.foldl (fun m p => mapSet m p.2 ((positions.get? p.1).getD 0)) []

/-- One iteration of the `nameToPos.forEach` loop of `setJointState`:
`const j = jointsByName.get(name); if (j) j.q = pos`. -/
def setJointStep (jm : List (String × UrdfJoint)) (p : String × ℝ) :
    List (String × UrdfJoint) :=
  match mapGet jm p.1 with
  | some j => mapSet jm p.1 { j with q := p.2 }
  | none => jm

/-- Source `setJointState`: for each association entry whose name resolves
to a joint, overwrite that joint's value; only `jointsByName` entries'
`q` fields change. -/
def setJointState (m : UrdfModel) (js : JointState) : UrdfModel :=
  let nameToPos := buildNameToPos js.name js.position
  { m with jointsByName := nameToPos.foldl setJointStep m.jointsByName }

/-- Source `jointMotionTR` (the `default:` arm of the source `switch`
coincides with `fixed`, the only remaining constructor). -/
noncomputable def jointMotionTR (j : UrdfJoint) : TransformTR :=
  match j.type with
  | .revolute => { r := quatFromAxisAngle j.axis j.q, t := vec3 0 0 0 }
  | .continuous => { r := quatFromAxisAngle j.axis j.q, t := vec3 0 0 0 }
  | .prismatic => { r := quatIdentity, t := vec3Scale j.axis j.q }
  | .fixed => { r := quatIdentity, t := vec3 0 0 0 }

/-- Source `compute`: one `TransformStamped` per `jointsByName` entry, in
map order; `options.publishTimeNs ? … : 0` is truthy exactly when the
option is present and nonzero. -/
noncomputable def compute (m : UrdfModel) (options : ComputeOptions) : TFMessage :=
  { transforms := m.jointsByName.map (fun p =>
      let joint := p.2
      let motion := jointMotionTR joint
      let rel := composeTR joint.origin motion
      let sec : ℕ :=
        if options.publishTimeNs.getD 0 ≠ 0
        then options.publishTimeNs.getD 0 / 1000000000 else 0
      let nanosec : ℕ :=
        if options.publishTimeNs.getD 0 ≠ 0
        then options.publishTimeNs.getD 0 % 1000000000 else 0
      { header := { stamp := { sec := sec, nanosec := nanosec }, frame_id := joint.parent }
        child_frame_id := joint.child
        transform := { translation := { x := rel.t.x, y := rel.t.y, z := rel.t.z }
                       rotation := { x := rel.r.x, y := rel.r.y, z := rel.r.z, w := rel.r.w } } }) }

/-- `compute` as a state-passing method: the source method body performs
no assignment to the model, so the post-state is the pre-state. -/
noncomputable def computeM (m : UrdfModel) (options : ComputeOptions) :
    UrdfModel × TFMessage :=
  (m, compute m options)

/-- Source `computeFromJointState`: set the joint state, then compute. -/
noncomputable def computeFromJointState (m : UrdfModel) (js : JointState)
    (options : ComputeOptions) : UrdfModel × TFMessage :=
  let m2 := setJointState m js
  (m2, compute m2 options)

-- -----------------------------
-- Specification-side definitions (phrased from the spec's words, to be
-- compared with the source-derived definitions above)
-- -----------------------------

/-- Whole seconds of a publish time in nanoseconds: integer division by
1e9; 0 when the option is absent. -/
def tsSecSpec : Option ℕ → ℕ
  | some t => t / 1000000000
  | none => 0

/-- Remainder nanoseconds of a publish time in nanoseconds; 0 when the
option is absent. -/
def tsNanoSpec : Option ℕ → ℕ
  | some t => t % 1000000000
  | none => 0

/-- The motion table of the spec: revolute/continuous rotate about the
axis by the value, prismatic translates along the axis scaled by the
value, fixed is the identity. -/
noncomputable def motionSpec : JointType → MathVec3 → ℝ → TransformTR
  | .revolute, axis, value => { r := quatFromAxisAngle axis value, t := vec3 0 0 0 }
  | .continuous, axis, value => { r := quatFromAxisAngle axis value, t := vec3 0 0 0 }
  | .prismatic, axis, value => { r := quatIdentity, t := vec3Scale axis value }
  | .fixed, _, _ => { r := quatIdentity, t := vec3 0 0 0 }

/-- Interpret a source quaternion record in Mathlib's quaternion algebra
(whose multiplication is the Hamilton product). -/
def toQuaternion (a : MathQuat) : Quaternion ℝ := ⟨a.w, a.x, a.y, a.z⟩

/-- The value the spec assigns to a joint name from a state update: the
position at the last occurrence of the name in `name[]`, defaulting to 0
when that index is beyond the end of `position[]`; `none` when the name
does not occur. -/
def specLastPos (names : List String) (positions : List ℝ) (n : String) :
    Option ℝ :=
  (names.enum.reverse.find? (fun p => decide (p.2 = n))).map
    (fun p => (positions.get? p.1).getD 0)

-- -----------------------------
-- Helper lemmas
-- -----------------------------

theorem tsSec_if_eq (o : Option ℕ) :
    (if o.getD 0 ≠ 0 then o.getD 0 / 1000000000 else 0) = tsSecSpec o := by
  cases o with
  | none => rfl
  | some t =>
    by_cases ht : t = 0
    · subst ht; simp [tsSecSpec]
    · simp [tsSecSpec, ht]

theorem tsNano_if_eq (o : Option ℕ) :
    (if o.getD 0 ≠ 0 then o.getD 0 % 1000000000 else 0) = tsNanoSpec o := by
  cases o with
  | none => rfl
  | some t =>
    by_cases ht : t = 0
    · subst ht; simp [tsNanoSpec]
    · simp [tsNanoSpec, ht]

-- -----------------------------
-- Claim theorems
-- -----------------------------

/-- C1: `compute` returns exactly one record per joint of the model, in
model order, carrying the joint's parent link as the frame label, its
child link, and the transform `compose(origin, motion(type, axis, value))`;
the timestamp is the supplied publish time split into whole seconds
(integer division by 1e9) and remainder nanoseconds, and (0, 0) when the
option is absent. -/
theorem compute_one_record_per_joint (m : UrdfModel) (o : ComputeOptions) :
    (compute m o).transforms = m.jointsByName.map (fun p =>
      { header := { stamp := { sec := tsSecSpec o.publishTimeNs
                               nanosec := tsNanoSpec o.publishTimeNs }
                    frame_id := p.2.parent }
        child_frame_id := p.2.child
        transform := { translation := (composeTR p.2.origin (jointMotionTR p.2)).t
                       rotation := (composeTR p.2.origin (jointMotionTR p.2)).r } }) := by
  simp only [compute, tsSec_if_eq, tsNano_if_eq]

/-- C2: the motion function maps revolute and continuous joints to the
axis-angle rotation with zero translation, prismatic joints to the
identity rotation with the axis scaled by the value, and fixed joints to
the identity rotation with zero translation. -/
theorem jointMotionTR_follows_spec (j : UrdfJoint) :
    jointMotionTR j = motionSpec j.type j.axis j.q := by
  cases j with
  | mk name ty parent child origin axis q => cases ty <;> rfl

/-- C3: `compose(a, b)` has rotation `multiply(a.rotation, b.rotation)` —
which is the Hamilton product, i.e. multiplication in the quaternion
algebra — and translation `add(a.translation, rotate(b.translation,
a.rotation))`. -/
theorem composeTR_follows_spec (a b : TransformTR) :
    (composeTR a b).r = quatMultiply a.r b.r
    ∧ toQuaternion (quatMultiply a.r b.r) = toQuaternion a.r * toQuaternion b.r
    ∧ (composeTR a b).t = vec3Add a.t (vec3RotateByQuat b.t a.r) := by
  refine ⟨rfl, ?_, rfl⟩
  ext <;>
    simp [toQuaternion, quatMultiply, Quaternion.mul_re, Quaternion.mul_imI,
      Quaternion.mul_imJ, Quaternion.mul_imK]

/-- C7: `compute` leaves the engine state unchanged, so a second call with
the same options returns identical output. -/
theorem compute_pure_and_repeatable (m : UrdfModel) (o : ComputeOptions) :
    (computeM m o).1 = m ∧ (computeM m o).2 = (computeM (computeM m o).1 o).2 :=
  ⟨rfl, rfl⟩

/-- C8: `computeFromJointState` is observably identical to
`setJointState` followed by `compute`: same output, same final state. -/
theorem computeFromJointState_is_set_then_compute (m : UrdfModel)
    (js : JointState) (o : ComputeOptions) :
    (computeFromJointState m js o).2 = (computeM (setJointState m js) o).2
    ∧ (computeFromJointState m js o).1 = (computeM (setJointState m js) o).1 :=
  ⟨rfl, rfl⟩

-- -----------------------------
-- Association-list lemmas for the state update (C4)
-- -----------------------------

theorem mapGet_mapSet_self {α : Type} (m : List (String × α)) (k : String) (v : α) :
    mapGet (mapSet m k v) k = some v := by
  induction m with
  | nil => simp [mapSet, mapGet]
  | cons p tl ih =>
    by_cases h : p.1 = k
    · simp [mapSet, h, mapGet]
    · simp [mapSet, h, mapGet, ih]

theorem mapGet_mapSet_ne {α : Type} (m : List (String × α)) (k k2 : String)
    (v : α) (h : k ≠ k2) : mapGet (mapSet m k v) k2 = mapGet m k2 := by
  induction m with
  | nil => simp [mapSet, mapGet, h]
  | cons p tl ih =>
    by_cases hp : p.1 = k
    · simp [mapSet, hp, mapGet, h]
    · have hk2 : ¬k2 = k := fun he => h he.symm
      by_cases hp2 : p.1 = k2
      · simp [mapSet, hp, mapGet, hp2, hk2]
      · simp [mapSet, hp, mapGet, hp2, hk2, ih]

theorem mapGet_eq_none_of_not_mem {α : Type} {m : List (String × α)} {k : String}
    (h : k ∉ m.map Prod.fst) : mapGet m k = none := by
  induction m with
  | nil => rfl
  | cons p tl ih =>
    simp only [List.map_cons, List.mem_cons] at h
    push_neg at h
    have hp : p.1 ≠ k := fun he => h.1 he.symm
    simp [mapGet, hp, ih h.2]

theorem mem_keys_mapSet {α : Type} {m : List (String × α)} {k x : String} {v : α}
    (h : x ∈ (mapSet m k v).map Prod.fst) : x ∈ m.map Prod.fst ∨ x = k := by
  induction m with
  | nil => simpa [mapSet] using h
  | cons p tl ih =>
    by_cases hp : p.1 = k
    · simp only [mapSet, if_pos hp, List.map_cons, List.mem_cons] at h
      rcases h with h | h
      · exact Or.inr h
      · exact Or.inl (by simp [List.mem_cons, h])
    · simp only [mapSet, if_neg hp, List.map_cons, List.mem_cons] at h
      rcases h with h | h
      · exact Or.inl (by simp [List.mem_cons, h])
      · rcases ih h with h2 | h2
        · exact Or.inl (by simp [List.mem_cons, h2])
        · exact Or.inr h2

theorem nodup_keys_mapSet {α : Type} {m : List (String × α)} {k : String} {v : α}
    (h : (m.map Prod.fst).Nodup) : ((mapSet m k v).map Prod.fst).Nodup := by
  induction m with
  | nil => simp [mapSet]
  | cons p tl ih =>
    simp only [List.map_cons, List.nodup_cons] at h
    by_cases hp : p.1 = k
    · simp only [mapSet, if_pos hp, List.map_cons, List.nodup_cons]
      exact ⟨hp ▸ h.1, h.2⟩
    · simp only [mapSet, if_neg hp, List.map_cons, List.nodup_cons]
      refine ⟨fun hmem => ?_, ih h.2⟩
      rcases mem_keys_mapSet hmem with h2 | h2
      · exact h.1 h2
      · exact hp h2

/-- Replace-first update of a joint's value under a name, the effect of
one `setJointStep` when the name is present. -/
def updFirst (n : String) (v : ℝ) : List (String × UrdfJoint) → List (String × UrdfJoint)
  | [] => []
  | e :: tl => if e.1 = n then (n, { e.2 with q := v }) :: tl else e :: updFirst n v tl

theorem updFirst_of_none {n : String} {v : ℝ} {m : List (String × UrdfJoint)}
    (h : mapGet m n = none) : updFirst n v m = m := by
  induction m with
  | nil => rfl
  | cons e tl ih =>
    by_cases he : e.1 = n
    · simp [mapGet, he] at h
    · simp only [mapGet, if_neg he] at h
      simp [updFirst, he, ih h]

theorem setJointStep_eq_updFirst (jm : List (String × UrdfJoint)) (n : String) (v : ℝ) :
    setJointStep jm (n, v) = updFirst n v jm := by
  induction jm with
  | nil => rfl
  | cons e tl ih =>
    by_cases he : e.1 = n
    · simp [setJointStep, mapGet, he, mapSet, updFirst]
    · simp only [setJointStep, mapGet, if_neg he, updFirst, if_neg he]
      cases hg : mapGet tl n with
      | some j =>
        simp only [setJointStep, hg] at ih
        simp only [mapSet, if_neg he]
        rw [ih]
      | none =>
        simp only [setJointStep, hg] at ih
        rw [updFirst_of_none hg]

theorem updFirst_keys (n : String) (v : ℝ) (jm : List (String × UrdfJoint)) :
    (updFirst n v jm).map Prod.fst = jm.map Prod.fst := by
  induction jm with
  | nil => rfl
  | cons e tl ih =>
    by_cases he : e.1 = n
    · simp [updFirst, he]
    · simp [updFirst, he, ih]

theorem updFirst_eq_map {jm : List (String × UrdfJoint)}
    (hjm : (jm.map Prod.fst).Nodup) (n : String) (v : ℝ) :
    updFirst n v jm
      = jm.map (fun e => if e.1 = n then (e.1, { e.2 with q := v }) else e) := by
  induction jm with
  | nil => rfl
  | cons e tl ih =>
    simp only [List.map_cons, List.nodup_cons] at hjm
    by_cases he : e.1 = n
    · simp only [updFirst, if_pos he, List.map_cons, if_pos he]
      have htl : tl.map (fun e => if e.1 = n then (e.1, { e.2 with q := v }) else e) = tl := by
        conv_rhs => rw [← List.map_id tl]
        refine List.map_congr_left (fun x hx => ?_)
        have : x.1 ≠ n := fun hxn => hjm.1 (he ▸ hxn ▸ List.mem_map_of_mem Prod.fst hx)
        simp [this]
      rw [htl, he]
    · simp only [updFirst, if_neg he, List.map_cons, if_neg he, ih hjm.2]

theorem foldl_setJointStep_eq (entries : List (String × ℝ)) :
    ∀ jm : List (String × UrdfJoint), (jm.map Prod.fst).Nodup →
      (entries.map Prod.fst).Nodup →
      entries.foldl setJointStep jm
        = jm.map (fun e =>
            match mapGet entries e.1 with
            | some v => (e.1, { e.2 with q := v })
            | none => e) := by
  induction entries with
  | nil =>
    intro jm _ _
    have hid : jm.map (fun e : String × UrdfJoint =>
        match mapGet ([] : List (String × ℝ)) e.1 with
        | some v => (e.1, { e.2 with q := v })
        | none => e) = jm.map id := rfl
    simp only [List.foldl_nil, hid, List.map_id]
  | cons p es ih =>
    intro jm hjm hent
    obtain ⟨n, v⟩ := p
    simp only [List.map_cons, List.nodup_cons] at hent
    simp only [List.foldl_cons]
    rw [setJointStep_eq_updFirst]
    have hkeys : ((updFirst n v jm).map Prod.fst).Nodup := by
      rw [updFirst_keys]; exact hjm
    rw [ih (updFirst n v jm) hkeys hent.2, updFirst_eq_map hjm n v, List.map_map]
    refine List.map_congr_left (fun e _ => ?_)
    by_cases hen : e.1 = n
    · have hes : mapGet es n = none := mapGet_eq_none_of_not_mem hent.1
      simp only [Function.comp_apply, if_pos hen, hen]
      simp [mapGet, hes]
    · have hne : ¬n = e.1 := fun hne => hen hne.symm
      simp only [Function.comp_apply, if_neg hen]
      simp [mapGet, hne]

theorem nodup_keys_foldl_mapSet (l : List (ℕ × String)) (f : ℕ → ℝ) :
    ∀ acc : List (String × ℝ), (acc.map Prod.fst).Nodup →
      ((l.foldl (fun m p => mapSet m p.2 (f p.1)) acc).map Prod.fst).Nodup := by
  induction l with
  | nil => intro acc h; simpa using h
  | cons p tl ih =>
    intro acc h
    simp only [List.foldl_cons]
    exact ih _ (nodup_keys_mapSet h)

theorem mapGet_foldl_mapSet (l : List (ℕ × String)) (f : ℕ → ℝ) (n : String) :
    ∀ acc : List (String × ℝ),
      mapGet (l.foldl (fun m p => mapSet m p.2 (f p.1)) acc) n
        = match l.reverse.find? (fun p => decide (p.2 = n)) with
          | some p => some (f p.1)
          | none => mapGet acc n := by
  induction l with
  | nil => intro acc; simp
  | cons p tl ih =>
    intro acc
    simp only [List.foldl_cons, List.reverse_cons, List.find?_append, ih]
    cases hf : tl.reverse.find? (fun p => decide (p.2 = n)) with
    | some p2 => simp [Option.or]
    | none =>
      by_cases hpn : p.2 = n
      · simp [Option.or, List.find?, hpn, mapGet_mapSet_self]
      · simp [Option.or, List.find?, hpn, mapGet_mapSet_ne _ _ _ _ hpn]

theorem nodup_keys_buildNameToPos (names : List String) (positions : List ℝ) :
    ((buildNameToPos names positions).map Prod.fst).Nodup := by
  unfold buildNameToPos
  exact nodup_keys_foldl_mapSet names.enum
    (fun i => (positions.get? i).getD 0) [] (by simp)

theorem mapGet_buildNameToPos (names : List String) (positions : List ℝ)
    (n : String) :
    mapGet (buildNameToPos names positions) n = specLastPos names positions n := by
  have h := mapGet_foldl_mapSet names.enum
    (fun i => (positions.get? i).getD 0) n []
  unfold buildNameToPos specLastPos
  refine h.trans ?_
  cases hf : names.enum.reverse.find? (fun p => decide (p.2 = n)) with
  | some p => simp [hf]
  | none => simp [hf, mapGet]

/-- C4: `setJointState` assigns to each joint whose name occurs in the
update's `name[]` the position at the last occurrence of that name (0 when
that index is beyond the end of `position[]`); joints not named keep their
values, names absent from the model are ignored without error, and no
engine state other than joint value fields changes. -/
theorem setJointState_follows_spec (m : UrdfModel) (js : JointState)
    (hnd : (m.jointsByName.map Prod.fst).Nodup) :
    (setJointState m js).jointsByName
      = m.jointsByName.map (fun e =>
          (e.1, { e.2 with q := (specLastPos js.name js.position e.1).getD e.2.q }))
    ∧ (setJointState m js).jointsByParentLink = m.jointsByParentLink
    ∧ (setJointState m js).linkParent = m.linkParent := by
  refine ⟨?_, rfl, rfl⟩
  show (buildNameToPos js.name js.position).foldl setJointStep m.jointsByName = _
  rw [foldl_setJointStep_eq _ m.jointsByName hnd (nodup_keys_buildNameToPos _ _)]
  refine List.map_congr_left (fun e _ => ?_)
  rw [mapGet_buildNameToPos]
  cases h : specLastPos js.name js.position e.1 with
  | some v => simp
  | none => simp

-- -----------------------------
-- Fixed joints and set-values independence (C9)
-- -----------------------------

theorem map_updFirst_eq {β : Type} (f : String × UrdfJoint → β)
    (l : List (String × UrdfJoint)) (n : String) (v : ℝ) (j : UrdfJoint)
    (hj : mapGet l n = some j)
    (hf : f (n, { j with q := v }) = f (n, j)) :
    (updFirst n v l).map f = l.map f := by
  induction l with
  | nil => rfl
  | cons e tl ih =>
    by_cases he : e.1 = n
    · simp only [mapGet, if_pos he, Option.some.injEq] at hj
      simp only [updFirst, if_pos he, List.map_cons]
      congr 1
      have he2 : e = (n, j) := by
        rw [← he, ← hj]
      rw [he2]
      exact hf
    · simp only [mapGet, if_neg he] at hj
      simp only [updFirst, if_neg he, List.map_cons]
      congr 1
      exact ih hj

/-- C9: the record `compute` emits for a joint of type fixed is unaffected
by any value set under that joint's name, so the whole output of `compute`
after such a `setJointState` equals the output without it. -/
theorem fixed_joint_independent_of_set_values (m : UrdfModel) (h : Header)
    (n : String) (v : ℝ) (o : ComputeOptions) (j : UrdfJoint)
    (hj : mapGet m.jointsByName n = some j) (hfix : j.type = JointType.fixed) :
    compute (setJointState m { header := h, name := [n], position := [v] }) o
      = compute m o := by
  have hset : (setJointState m { header := h, name := [n], position := [v] }).jointsByName
      = updFirst n v m.jointsByName := by
    show (buildNameToPos [n] [v]).foldl setJointStep m.jointsByName = _
    have hb : buildNameToPos [n] [v] = [(n, v)] := rfl
    rw [hb]
    simp only [List.foldl_cons, List.foldl_nil]
    exact setJointStep_eq_updFirst m.jointsByName n v
  unfold compute
  rw [hset]
  congr 1
  refine map_updFirst_eq _ m.jointsByName n v j hj ?_
  have hty : ({ j with q := v } : UrdfJoint).type = JointType.fixed := hfix
  simp only [jointMotionTR, hty, hfix]

-- -----------------------------
-- Parser drop behaviour (C6, C10)
-- -----------------------------

/-- C6: a joint block whose `parent` or `child` self-closing sub-element
is missing parses to nothing — never an error — and the model is built
from exactly the blocks that do parse, so the remaining blocks all still
produce their joints. -/
theorem malformed_joint_block_dropped (block xml : String)
    (hmiss : parseSingleTagAttr block "parent" "link" = none
      ∨ parseSingleTagAttr block "child" "link" = none) :
    parseJointBlock block = none
    ∧ parseUrdf xml
        = buildModelFromJoints ((extractJointBlocks xml).filterMap parseJointBlock) := by
  refine ⟨?_, rfl⟩
  unfold parseJointBlock
  cases hoc : jointOpenCapture block with
  | none => rfl
  | some capt =>
    rcases hmiss with hm | hm <;> simp [hm]

/-- C10: a joint block whose opening tag lacks a `name` attribute, or
whose `name` attribute trims to the empty string, is dropped even when
its parent and child links are present. -/
theorem unnamed_joint_block_dropped (block capt : String)
    (hopen : jointOpenCapture block = some capt)
    (hname : jsTrim ((attrsGet (parseAttrs capt) "name").getD "") = "") :
    parseJointBlock block = none := by
  unfold parseJointBlock
  rw [hopen]
  simp [hname]

-- -----------------------------
-- Axis normalisation (C5)
-- -----------------------------

/-- `vec3Normalize` yields a unit vector except on the zero vector, which
it returns unchanged (the safe-length substitution divides by 1). -/
theorem vec3Normalize_unit_or_zero (v : MathVec3) :
    vec3Length (vec3Normalize v) = 1 ∨ vec3Normalize v = vec3 0 0 0 := by
  by_cases h : vec3Length v = 0
  · right
    have hnn : (0 : ℝ) ≤ v.x ^ 2 + v.y ^ 2 + v.z ^ 2 := by positivity
    have h0 : v.x ^ 2 + v.y ^ 2 + v.z ^ 2 = 0 := by
      have hs : Real.sqrt (v.x ^ 2 + v.y ^ 2 + v.z ^ 2) = 0 := h
      exact (Real.sqrt_eq_zero hnn).mp hs
    have hx : v.x = 0 := by nlinarith [sq_nonneg v.x, sq_nonneg v.y, sq_nonneg v.z]
    have hy : v.y = 0 := by nlinarith [sq_nonneg v.x, sq_nonneg v.y, sq_nonneg v.z]
    have hz : v.z = 0 := by nlinarith [sq_nonneg v.x, sq_nonneg v.y, sq_nonneg v.z]
    unfold vec3Normalize
    simp [h, hx, hy, hz, vec3]
  · left
    unfold vec3Normalize
    simp only [if_neg h]
    unfold vec3Length at h ⊢
    have hS : (0 : ℝ) ≤ v.x ^ 2 + v.y ^ 2 + v.z ^ 2 := by positivity
    have hL2 : Real.sqrt (v.x ^ 2 + v.y ^ 2 + v.z ^ 2) ^ 2
        = v.x ^ 2 + v.y ^ 2 + v.z ^ 2 := Real.sq_sqrt hS
    have hSne : v.x ^ 2 + v.y ^ 2 + v.z ^ 2 ≠ 0 := fun h0 => h (by rw [h0, Real.sqrt_zero])
    have hsum : (v.x / Real.sqrt (v.x ^ 2 + v.y ^ 2 + v.z ^ 2)) ^ 2
        + (v.y / Real.sqrt (v.x ^ 2 + v.y ^ 2 + v.z ^ 2)) ^ 2
        + (v.z / Real.sqrt (v.x ^ 2 + v.y ^ 2 + v.z ^ 2)) ^ 2 = 1 := by
      field_simp
    simp [hsum]

theorem mem_mapSet {α : Type} {m : List (String × α)} {k : String} {v : α}
    {e : String × α} (h : e ∈ mapSet m k v) : e ∈ m ∨ e = (k, v) := by
  induction m with
  | nil => simpa [mapSet] using h
  | cons p tl ih =>
    by_cases hp : p.1 = k
    · simp only [mapSet, if_pos hp, List.mem_cons] at h
      rcases h with h | h
      · exact Or.inr h
      · exact Or.inl (List.mem_cons_of_mem _ h)
    · simp only [mapSet, if_neg hp, List.mem_cons] at h
      rcases h with h | h
      · exact Or.inl (h ▸ List.mem_cons_self _ _)
      · rcases ih h with h2 | h2
        · exact Or.inl (List.mem_cons_of_mem _ h2)
        · exact Or.inr h2

theorem mem_buildModel_jointsByName {joints : List UrdfJoint}
    {e : String × UrdfJoint} :
    ∀ {acc : UrdfModel}, e ∈ (joints.foldl modelStep acc).jointsByName →
      e.2 ∈ joints ∨ e ∈ acc.jointsByName := by
  induction joints with
  | nil => intro acc h; exact Or.inr h
  | cons j js ih =>
    intro acc h
    simp only [List.foldl_cons] at h
    rcases ih h with h2 | h2
    · exact Or.inl (List.mem_cons_of_mem _ h2)
    · rcases mem_mapSet h2 with h3 | h3
      · exact Or.inr h3
      · refine Or.inl ?_
        have : e.2 = j := by rw [h3]
        rw [this]
        exact List.mem_cons_self _ _

/-- Every joint produced by `parseJointBlock` carries a normalised axis:
its `axis` field is `vec3Normalize` of the parsed (or default) axis value. -/
theorem parseJointBlock_axis {block : String} {j : UrdfJoint}
    (h : parseJointBlock block = some j) :
    ∃ v, j.axis = vec3Normalize v := by
  unfold parseJointBlock at h
  cases hoc : jointOpenCapture block with
  | none => rw [hoc] at h; exact absurd h (by simp)
  | some capt =>
    rw [hoc] at h
    dsimp only at h
    split at h
    · exact absurd h (by simp)
    · simp only [Option.some.injEq] at h
      exact ⟨_, by rw [← h]⟩

/-- C5 (amended): every joint that enters the model has an axis that is
either of unit length or exactly the zero vector — the safe-length
substitution returns a zero axis unchanged rather than falling back to a
unit vector. -/
theorem parsed_axis_unit_or_zero (xml : String) (e : String × UrdfJoint)
    (he : e ∈ (parseUrdf xml).jointsByName) :
    vec3Length e.2.axis = 1 ∨ e.2.axis = vec3 0 0 0 := by
  unfold parseUrdf buildModelFromJoints at he
  rcases mem_buildModel_jointsByName he with h | h
  · rcases List.mem_filterMap.mp h with ⟨b, _, hb⟩
    rcases parseJointBlock_axis hb with ⟨v, hv⟩
    rw [hv]
    exact vec3Normalize_unit_or_zero v
  · exact absurd h (by simp)

-- -----------------------------
-- Concrete inputs for the counterexample and the witnesses
-- -----------------------------

/-- A description whose single joint block declares the degenerate axis
`xyz="0 0 0"`. -/
noncomputable def cexUrdf : String :=
  "<robot><joint name=\"a\" type=\"revolute\"><parent link=\"p\"/><child link=\"c\"/><axis xyz=\"0 0 0\"/></joint></robot>"

/-- The joint that `parseUrdf` builds from `cexUrdf`. -/
noncomputable def jCex : UrdfJoint :=
  { name := "a", type := .revolute, parent := "p", child := "c",
    origin := { r := quatIdentity, t := vec3 0 0 0 },
    axis := vec3Normalize (parseXyzVec "0 0 0"), q := 0 }

theorem cexUrdf_model : (parseUrdf cexUrdf).jointsByName = [("a", jCex)] := rfl

theorem jCex_axis_zero : jCex.axis = vec3 0 0 0 := by
  show vec3Normalize (parseXyzVec "0 0 0") = vec3 0 0 0
  have h1 : parseXyzVec "0 0 0"
      = vec3 ((0 : ℚ) : ℝ) ((0 : ℚ) : ℝ) ((0 : ℚ) : ℝ) := rfl
  have h2 : parseXyzVec "0 0 0" = vec3 0 0 0 := by
    rw [h1]; norm_num [vec3]
  rw [h2]
  unfold vec3Normalize vec3Length
  norm_num [vec3, Real.sqrt_zero]

/-- C5 counterexample: in the model parsed from `cexUrdf`, the joint
entered with axis input `0 0 0` has axis of length 0, not unit length. -/
theorem axis_unit_length_cex :
    ¬ ∀ e ∈ (parseUrdf cexUrdf).jointsByName, vec3Length e.2.axis = 1 := by
  intro hall
  have hmem : ("a", jCex) ∈ (parseUrdf cexUrdf).jointsByName := by
    rw [cexUrdf_model]; exact List.mem_singleton.mpr rfl
  have h1 := hall ("a", jCex) hmem
  have h0 : vec3Length jCex.axis = 0 := by
    rw [jCex_axis_zero]
    unfold vec3Length
    norm_num [vec3, Real.sqrt_zero]
  exact zero_ne_one ((h0.symm.trans h1))

/-- Witness for the amended C5 theorem at the concrete model of `cexUrdf`
(the joint hits the zero-axis disjunct). -/
theorem parsed_axis_unit_or_zero_witness :
    ("a", jCex) ∈ (parseUrdf cexUrdf).jointsByName
    ∧ (vec3Length jCex.axis = 1 ∨ jCex.axis = vec3 0 0 0) := by
  have hmem : ("a", jCex) ∈ (parseUrdf cexUrdf).jointsByName := by
    rw [cexUrdf_model]; exact List.mem_singleton.mpr rfl
  exact ⟨hmem, parsed_axis_unit_or_zero cexUrdf ("a", jCex) hmem⟩

noncomputable def wJoint : UrdfJoint :=
  { name := "j1", type := .revolute, parent := "base", child := "link1",
    origin := { r := quatIdentity, t := vec3 0 0 0 },
    axis := vec3 1 0 0, q := 0 }

noncomputable def wModel : UrdfModel :=
  { jointsByName := [("j1", wJoint)]
    jointsByParentLink := [("base", ["j1"])]
    linkParent := [("link1", "base")] }

/-- An update naming `j1` twice (the last occurrence's index is beyond the
end of `position[]`) and one name absent from the model. -/
noncomputable def wJs : JointState :=
  { header := { stamp := { sec := 0, nanosec := 0 }, frame_id := "" }
    name := ["j1", "nope", "j1"]
    position := [1, 2] }

/-- Witness for C4 at a concrete model and update. -/
theorem setJointState_follows_spec_witness :
    (wModel.jointsByName.map Prod.fst).Nodup
    ∧ ((setJointState wModel wJs).jointsByName
        = wModel.jointsByName.map (fun e =>
            (e.1, { e.2 with q := (specLastPos wJs.name wJs.position e.1).getD e.2.q }))
      ∧ (setJointState wModel wJs).jointsByParentLink = wModel.jointsByParentLink
      ∧ (setJointState wModel wJs).linkParent = wModel.linkParent) :=
  ⟨by decide, setJointState_follows_spec wModel wJs (by decide)⟩

noncomputable def wMalformedBlock : String :=
  "<joint name=\"b\" type=\"fixed\"><child link=\"c\"/></joint>"

/-- Witness for C6 at a concrete block with no `parent` element. -/
theorem malformed_joint_block_dropped_witness :
    (parseSingleTagAttr wMalformedBlock "parent" "link" = none
      ∨ parseSingleTagAttr wMalformedBlock "child" "link" = none)
    ∧ parseJointBlock wMalformedBlock = none :=
  ⟨Or.inl (by decide),
   (malformed_joint_block_dropped wMalformedBlock "" (Or.inl (by decide))).1⟩

noncomputable def wFixJoint : UrdfJoint :=
  { name := "f", type := .fixed, parent := "base", child := "tool",
    origin := { r := quatIdentity, t := vec3 0 0 0 },
    axis := vec3 1 0 0, q := 0 }

noncomputable def wFixModel : UrdfModel :=
  { jointsByName := [("f", wFixJoint)]
    jointsByParentLink := [("base", ["f"])]
    linkParent := [("tool", "base")] }

noncomputable def wHeader : Header :=
  { stamp := { sec := 0, nanosec := 0 }, frame_id := "" }

/-- Witness for C9 at a concrete model with one fixed joint. -/
theorem fixed_joint_independent_witness :
    mapGet wFixModel.jointsByName "f" = some wFixJoint
    ∧ wFixJoint.type = JointType.fixed
    ∧ compute (setJointState wFixModel
        { header := wHeader, name := ["f"], position := [5] })
        { publishTimeNs := none }
      = compute wFixModel { publishTimeNs := none } :=
  ⟨rfl, rfl,
   fixed_joint_independent_of_set_values wFixModel wHeader "f" 5
     { publishTimeNs := none } wFixJoint rfl rfl⟩

noncomputable def wUnnamedBlock : String :=
  "<joint type=\"fixed\"><parent link=\"p\"/><child link=\"c\"/></joint>"

/-- Witness for C10 at a concrete block whose opening tag has no name. -/
theorem unnamed_joint_block_dropped_witness :
    jointOpenCapture wUnnamedBlock = some " type=\"fixed\""
    ∧ jsTrim ((attrsGet (parseAttrs " type=\"fixed\"") "name").getD "") = ""
    ∧ parseJointBlock wUnnamedBlock = none :=
  ⟨by decide, by decide,
   unnamed_joint_block_dropped wUnnamedBlock " type=\"fixed\"" (by decide) (by decide)⟩
